import Mathlib

/-!
# MSP430 LaunchPad music player: timing engine

A shallow embedding of `launchpad-music.c`: the tempo setter `set_bpm`, the
blocking primitives `play` and `rest`, and the two Timer_A interrupt handlers
`timer_sound_isr` and `timer_elapsed_isr`.

`unsigned int` is 16 bits wide on the MSP430, so every `unsigned int` value is a
natural number reduced modulo `65536` wherever the C arithmetic can leave the
range.  Interrupts are an explicit input: a busy-wait loop consumes a list of
pending interrupt requests, servicing one between two evaluations of its
condition.
-/

namespace LaunchpadMusic

/-! ## Constants -/

/-- Bit mask `BIT6` of the MSP430 device header (`0x0040`). -/
def BIT6 : Nat := 0x40

/-- Bit mask `BIT7` of the MSP430 device header (`0x0080`). -/
def BIT7 : Nat := 0x80

/-- Source: `#define LED_GREEN BIT6`. -/
def LED_GREEN : Nat := BIT6

/-- Source: `#define SPEAKER BIT7`. -/
def SPEAKER : Nat := BIT7

/-- Source: `#define DEAD_TIME_MS 20`. -/
def DEAD_TIME_MS : Nat := 20

/-- Source: `#define TICKS_PER_BEAT 4`. -/
def TICKS_PER_BEAT : Nat := 4

/-- Source: `#define MIDDLE_A 1136`. -/
def MIDDLE_A : Nat := 1136

/-! ## Program state -/

/-- The globals of the program together with the registers the core writes:
`TACCR0`, `TACCR1` (Timer_A compare registers) and `P1OUT` (the output port that
`LED_OUT` and `SPEAKER_OUT` both name). -/
structure State where
  sound_enabled : Nat
  current_note : Nat
  ms_elapsed : Nat
  ms_per_tick : Nat
  TACCR0 : Nat
  TACCR1 : Nat
  P1OUT : Nat
deriving DecidableEq, Repr

/-- Source: `set_bpm`.  `TICKS_PER_BEAT * bpm` is an `unsigned int` product and
wraps modulo `65536`; the literal `60000` does not fit a 16-bit `int`, so the
division is carried out in `long` and its quotient is stored back into the
16-bit `ms_per_tick`.  A zero divisor has no defined result (`none`). -/
def set_bpm (s : State) (bpm : Nat) : Option State :=
  let d := (TICKS_PER_BEAT * bpm) % 65536
  if d = 0 then none
  else some { s with ms_per_tick := (60000 / d) % 65536 }

/-- Source: `timer_sound_isr`, the CCR0 handler. -/
def timer_sound_isr (s : State) : State :=
  let s1 := { s with TACCR0 := (s.TACCR0 + s.current_note) % 65536 }
  if s1.sound_enabled ≠ 0 then { s1 with P1OUT := s1.P1OUT ^^^ SPEAKER } else s1

/-- Source: `timer_elapsed_isr`, the TAIV handler; `taiv` is the value read from
the interrupt vector register `TAIV`. -/
def timer_elapsed_isr (s : State) (taiv : Nat) : State :=
  if taiv = 2 then
    let s1 := { s with TACCR1 := (s.TACCR1 + 1000) % 65536 }
    { s1 with ms_elapsed := (s1.ms_elapsed + 1) % 65536 }
  else s

/-! ## Interrupts seen by the foreground code -/

/-- An interrupt request of Timer_A: `TIMERA0` is the CCR0 vector, `TIMERA1` the
shared vector, which carries the value its handler will read from `TAIV`. -/
inductive Irq where
  | TIMERA0 : Irq
  | TIMERA1 (taiv : Nat) : Irq
deriving DecidableEq, Repr

/-- Service one interrupt request with the handler installed on its vector. -/
def fire (s : State) : Irq → State
  | Irq.TIMERA0 => timer_sound_isr s
  | Irq.TIMERA1 taiv => timer_elapsed_isr s taiv

/-- The number of elapsed-time firings (vector `TIMERA1` with `TAIV = 2`) in a
sequence of interrupt requests. -/
def ms_firings : List Irq → Nat
  | [] => 0
  | i :: rest => (if i = Irq.TIMERA1 2 then 1 else 0) + ms_firings rest

/-- What one busy-wait loop did: the state when its condition first failed, the
number of elapsed-time firings it sat through, every state it passed through
(one per serviced interrupt), and the interrupt requests it left pending. -/
structure WaitRun where
  exit : State
  ms : Nat
  seen : List State
  pending : List Irq
deriving DecidableEq, Repr

/-- Source: the loops `while (ms_elapsed < thresh);` of `play` and `rest`.  The
condition is evaluated, and while it holds the next pending interrupt is
serviced before it is evaluated again.  `ms` and `seen` accumulate the count of
elapsed-time firings and the states passed through (latest first).  `none`: the
requests ran out with the condition still true, so the loop has not returned
yet. -/
def busy_wait_loop (thresh : Nat) : State → List Irq → Nat → List State → Option WaitRun
  | s, [], ms, seen => if s.ms_elapsed < thresh then none else some ⟨s, ms, seen, []⟩
  | s, i :: rest, ms, seen =>
    if s.ms_elapsed < thresh then
      busy_wait_loop thresh (fire s i) rest
        (ms + (if i = Irq.TIMERA1 2 then 1 else 0)) (fire s i :: seen)
    else some ⟨s, ms, seen, i :: rest⟩

/-- One busy-wait loop entered in state `s` with the requests `irqs` ahead. -/
def busy_wait (thresh : Nat) (s : State) (irqs : List Irq) : Option WaitRun :=
  busy_wait_loop thresh s irqs 0 []

/-- A completed call of `play`: the state after its initial writes, the first
(sounding) wait, the state after sound is switched off, and the second wait. -/
structure PlayRun where
  start : State
  sounding : WaitRun
  muted : State
  silent : WaitRun
deriving DecidableEq, Repr

/-- Total number of elapsed-time firings between the reset of `ms_elapsed` and the
return of `play`. -/
def PlayRun.total_ms (r : PlayRun) : Nat := r.sounding.ms + r.silent.ms

/-- Source: `play`.  `duration_ticks * ms_per_tick` and
`duration_ms - DEAD_TIME_MS` are `unsigned int` expressions and wrap modulo
`65536`; `~LED_GREEN` is the 16-bit complement `0xFFBF`. -/
def play (s : State) (note duration_ticks : Nat) (irqs : List Irq) : Option PlayRun :=
  let duration_ms := (duration_ticks * s.ms_per_tick) % 65536
  let s1 := { s with current_note := note }
  let s2 := { s1 with sound_enabled := 1 }
  let s3 := { s2 with ms_elapsed := 0 }
  let s4 := { s3 with P1OUT := s3.P1OUT ||| LED_GREEN }
  match busy_wait ((duration_ms + 65536 - DEAD_TIME_MS) % 65536) s4 irqs with
  | none => none
  | some w1 =>
    let s5 := { w1.exit with sound_enabled := 0 }
    let s6 := { s5 with P1OUT := s5.P1OUT &&& (65535 - LED_GREEN) }
    match busy_wait duration_ms s6 w1.pending with
    | none => none
    | some w2 => some ⟨s4, w1, s6, w2⟩

/-- A completed call of `rest`: the state after its two writes, and its wait. -/
structure RestRun where
  start : State
  silent : WaitRun
deriving DecidableEq, Repr

/-- Source: `rest`. -/
def rest (s : State) (duration_ticks : Nat) (irqs : List Irq) : Option RestRun :=
  let duration_ms := (duration_ticks * s.ms_per_tick) % 65536
  let s1 := { s with sound_enabled := 0 }
  let s2 := { s1 with ms_elapsed := 0 }
  match busy_wait duration_ms s2 irqs with
  | none => none
  | some w => some ⟨s2, w⟩

/-! ## Timer_A in continuous mode -/

/-- The CPU state together with the free-running 16-bit counter `TAR`. -/
structure Machine where
  s : State
  TAR : Nat
deriving DecidableEq, Repr

/-- One hardware tick of Timer_A as `init` configures it (`MC_CONT`, `CCIE` on
both compare channels, `TAIE`): `TAR` counts up modulo `65536`; counting to
`TACCR0` raises the CCR0 interrupt, counting to `TACCR1` raises the shared
vector with `TAIV = 2`, and rolling over to zero raises it with `TAIV = 10`.
Handlers run in priority order within the tick. -/
def clock (m : Machine) : Machine :=
  let tar := (m.TAR + 1) % 65536
  let s0 := if tar = m.s.TACCR0 then timer_sound_isr m.s else m.s
  let s1 := if tar = s0.TACCR1 then timer_elapsed_isr s0 2 else s0
  let s2 := if tar = 0 then timer_elapsed_isr s1 10 else s1
  ⟨s2, tar⟩

/-- Whether the speaker pin (bit 7 of `P1OUT`) differs between two states. -/
def toggled (a b : State) : Bool := a.P1OUT.testBit 7 != b.P1OUT.testBit 7

/-- Number of hardware ticks until the speaker pin next changes level, looking
at most `fuel` ticks ahead. -/
def ticks_to_toggle : Nat → Machine → Option Nat
  | 0, _ => none
  | fuel + 1, m =>
    if toggled (clock m).s m.s then some 1
    else
      match ticks_to_toggle fuel (clock m) with
      | none => none
      | some k => some (k + 1)

/-! ## Concrete states used in the examples -/

/-- The program right after `set_bpm(120)`: 125 ms per tick, sound off. -/
def s120 : State := ⟨0, MIDDLE_A, 0, 125, 0, 0, 0⟩

/-- A tempo of 1000 bpm: 15 ms per tick, less than the dead time. -/
def s1000 : State := ⟨0, MIDDLE_A, 0, 15, 0, 0, 0⟩

/-- The state `set_bpm(6000)` leaves `s120` in: 2 ms per tick. -/
def s6000 : State := ⟨0, MIDDLE_A, 0, 2, 0, 0, 0⟩

/-- The state `set_bpm(16385)` leaves `s120` in: 15000 ms per tick. -/
def s16385 : State := ⟨0, MIDDLE_A, 0, 15000, 0, 0, 0⟩

/-- A state whose millisecond counter holds the largest 16-bit value. -/
def sWrap : State := ⟨0, MIDDLE_A, 65535, 125, 0, 0, 0⟩

/-- A state with sound on, mid-note. -/
def sOn : State := ⟨1, MIDDLE_A, 7, 125, 4000, 9000, 0x40⟩

/-- A machine one tick before a CCR0 match, playing `MIDDLE_A`. -/
def mA : Machine := ⟨⟨1, MIDDLE_A, 0, 125, 1, 500, 0⟩, 0⟩

/-- What the interrupt handlers leave alone in the foreground's variables: `t` has
the sound switch, note and tempo of `s`, and the port of `s` if sound is off. -/
def Kept (s t : State) : Prop :=
  t.sound_enabled = s.sound_enabled ∧ t.current_note = s.current_note ∧
    t.ms_per_tick = s.ms_per_tick ∧ (s.sound_enabled = 0 → t.P1OUT = s.P1OUT)

/-! ## Lemmas on the handlers and the busy-wait loop -/

/-- A state keeps its own variables. -/
theorem Kept.refl (s : State) : Kept s s := ⟨rfl, rfl, rfl, fun _ => rfl⟩

/-- Keeping the foreground's variables composes along a run. -/
theorem Kept.trans {a b c : State} (h1 : Kept a b) (h2 : Kept b c) : Kept a c := by
  obtain ⟨e1, n1, t1, p1⟩ := h1
  obtain ⟨e2, n2, t2, p2⟩ := h2
  refine ⟨e2.trans e1, n2.trans n1, t2.trans t1, fun h => ?_⟩
  rw [p2 (e1.trans h), p1 h]

/-- The CCR0 handler writes the port only when sound is on. -/
theorem kept_timer_sound_isr (s : State) : Kept s (timer_sound_isr s) := by
  unfold timer_sound_isr Kept
  by_cases h : s.sound_enabled = 0 <;> simp [h]

/-- The TAIV handler writes none of the foreground's variables. -/
theorem kept_timer_elapsed_isr (s : State) (taiv : Nat) :
    Kept s (timer_elapsed_isr s taiv) := by
  unfold timer_elapsed_isr Kept
  by_cases h : taiv = 2 <;> simp [h]

/-- Servicing any interrupt keeps the foreground's variables. -/
theorem kept_fire (s : State) (i : Irq) : Kept s (fire s i) := by
  cases i with
  | TIMERA0 => exact kept_timer_sound_isr s
  | TIMERA1 taiv => exact kept_timer_elapsed_isr s taiv

/-- Only a firing with `TAIV = 2` moves the millisecond counter, by one modulo
2^16. -/
theorem ms_elapsed_fire (s : State) (i : Irq) :
    (fire s i).ms_elapsed =
      if i = Irq.TIMERA1 2 then (s.ms_elapsed + 1) % 65536 else s.ms_elapsed := by
  cases i with
  | TIMERA0 =>
    simp only [fire, timer_sound_isr]
    by_cases h : s.sound_enabled = 0 <;> simp [h]
  | TIMERA1 taiv =>
    simp only [fire, timer_elapsed_isr]
    by_cases h : taiv = 2 <;> simp [h]

/-- A run of `n` elapsed-time requests holds `n` elapsed-time firings. -/
theorem ms_firings_replicate (n : Nat) :
    ms_firings (List.replicate n (Irq.TIMERA1 2)) = n := by
  induction n with
  | zero => rfl
  | succ k ih => simp [List.replicate_succ, ms_firings, ih]; omega

/-- A loop whose condition is false on entry returns at once, servicing nothing. -/
theorem busy_wait_loop_done (thresh : Nat) (s : State) (irqs : List Irq) (ms : Nat)
    (seen : List State) (h : thresh ≤ s.ms_elapsed) :
    busy_wait_loop thresh s irqs ms seen = some ⟨s, ms, seen, irqs⟩ := by
  have hn : ¬ s.ms_elapsed < thresh := by omega
  cases irqs with
  | nil => simp [busy_wait_loop, hn]
  | cons i rest => simp [busy_wait_loop, hn]

/-- A loop entered at or below a 16-bit threshold returns as soon as the counter
has been incremented up to the threshold, given that many elapsed-time firings
among the pending requests. -/
theorem busy_wait_loop_reaches (thresh : Nat) (hthresh : thresh < 65536) :
    ∀ (irqs : List Irq) (s : State) (ms : Nat) (seen : List State),
      s.ms_elapsed ≤ thresh → thresh - s.ms_elapsed ≤ ms_firings irqs →
      ∃ r, busy_wait_loop thresh s irqs ms seen = some r ∧
        r.ms = ms + (thresh - s.ms_elapsed) ∧ r.exit.ms_elapsed = thresh ∧
        Kept s r.exit ∧
        ms_firings r.pending + (thresh - s.ms_elapsed) = ms_firings irqs ∧
        ∀ t ∈ r.seen, t ∈ seen ∨ Kept s t := by
  intro irqs
  induction irqs with
  | nil =>
    intro s ms seen hle hfire
    simp only [ms_firings] at hfire
    have hn : ¬ s.ms_elapsed < thresh := by omega
    refine ⟨⟨s, ms, seen, []⟩, by simp [busy_wait_loop, hn], ?_, ?_, Kept.refl s, ?_, ?_⟩
    · simp; omega
    · simp; omega
    · simp [ms_firings]; omega
    · intro t ht; exact Or.inl ht
  | cons i rest ih =>
    intro s ms seen hle hfire
    by_cases hlt : s.ms_elapsed < thresh
    · have hstep : busy_wait_loop thresh s (i :: rest) ms seen =
          busy_wait_loop thresh (fire s i) rest
            (ms + (if i = Irq.TIMERA1 2 then 1 else 0)) (fire s i :: seen) := by
        simp [busy_wait_loop, hlt]
      have hms := ms_elapsed_fire s i
      simp only [ms_firings] at hfire
      by_cases hi : i = Irq.TIMERA1 2
      · simp only [hi, if_true] at hms hfire hstep
        have hmod : (s.ms_elapsed + 1) % 65536 = s.ms_elapsed + 1 :=
          Nat.mod_eq_of_lt (by omega)
        rw [hmod] at hms
        obtain ⟨r, hr, hrms, hrex, hrk, hrp, hrs⟩ :=
          ih (fire s (Irq.TIMERA1 2)) (ms + 1) (fire s (Irq.TIMERA1 2) :: seen)
            (by omega) (by omega)
        refine ⟨r, by rw [hi, hstep]; exact hr, by omega, hrex,
          (kept_fire s _).trans hrk, ?_, ?_⟩
        · rw [hi]; simp only [ms_firings, if_true]; omega
        · intro t ht
          rcases hrs t ht with h | h
          · rcases List.mem_cons.mp h with h | h
            · exact Or.inr (h ▸ kept_fire s _)
            · exact Or.inl h
          · exact Or.inr ((kept_fire s _).trans h)
      · simp only [hi, if_false] at hms hfire hstep
        obtain ⟨r, hr, hrms, hrex, hrk, hrp, hrs⟩ :=
          ih (fire s i) (ms + 0) (fire s i :: seen) (by omega) (by omega)
        refine ⟨r, by rw [hstep]; exact hr, by omega, hrex,
          (kept_fire s _).trans hrk, ?_, ?_⟩
        · simp only [ms_firings, hi, if_false]; omega
        · intro t ht
          rcases hrs t ht with h | h
          · rcases List.mem_cons.mp h with h | h
            · exact Or.inr (h ▸ kept_fire s _)
            · exact Or.inl h
          · exact Or.inr ((kept_fire s _).trans h)
    · have h0 : thresh - s.ms_elapsed = 0 := by omega
      refine ⟨⟨s, ms, seen, i :: rest⟩, busy_wait_loop_done thresh s _ ms seen (by omega),
        ?_, ?_, Kept.refl s, ?_, ?_⟩
      · simp; omega
      · simp; omega
      · simp; omega
      · intro t ht; exact Or.inl ht

/-- The busy-wait loop entered in state `s` at or below a 16-bit threshold. -/
theorem busy_wait_reaches (thresh : Nat) (hthresh : thresh < 65536) (irqs : List Irq)
    (s : State) (hle : s.ms_elapsed ≤ thresh) (hfire : thresh - s.ms_elapsed ≤ ms_firings irqs) :
    ∃ r, busy_wait thresh s irqs = some r ∧
      r.ms = thresh - s.ms_elapsed ∧ r.exit.ms_elapsed = thresh ∧ Kept s r.exit ∧
      ms_firings r.pending + (thresh - s.ms_elapsed) = ms_firings irqs ∧
      ∀ t ∈ r.seen, Kept s t := by
  obtain ⟨r, hr, hrms, hrex, hrk, hrp, hrs⟩ :=
    busy_wait_loop_reaches thresh hthresh irqs s 0 [] hle hfire
  refine ⟨r, hr, by omega, hrex, hrk, hrp, fun t ht => ?_⟩
  rcases hrs t ht with h | h
  · simp at h
  · exact h

/-- The busy-wait loop entered with its condition already false. -/
theorem busy_wait_done (thresh : Nat) (s : State) (irqs : List Irq)
    (h : thresh ≤ s.ms_elapsed) : busy_wait thresh s irqs = some ⟨s, 0, [], irqs⟩ :=
  busy_wait_loop_done thresh s irqs 0 [] h

/-- With sound on, the CCR0 handler flips the speaker pin. -/
theorem timer_sound_isr_toggles (s : State) (hon : s.sound_enabled ≠ 0) :
    toggled (timer_sound_isr s) s = true := by
  have hbit : Nat.testBit 128 7 = true := by decide
  have hp : (timer_sound_isr s).P1OUT = s.P1OUT ^^^ 128 := by
    simp [timer_sound_isr, hon, SPEAKER, BIT7]
  simp only [toggled, hp, Nat.testBit_xor, hbit]
  cases s.P1OUT.testBit 7 <;> simp

/-- The CCR0 handler advances `TACCR0` by the note and keeps the sound switch. -/
theorem timer_sound_isr_effect_fields (s : State) :
    (timer_sound_isr s).TACCR0 = (s.TACCR0 + s.current_note) % 65536 ∧
      (timer_sound_isr s).sound_enabled = s.sound_enabled := by
  unfold timer_sound_isr
  by_cases h : s.sound_enabled = 0 <;> simp [h]

/-! ## The tempo setter -/

/-- Below 16384 bpm the product `TICKS_PER_BEAT * bpm` fits 16 bits and `set_bpm`
stores the truncated quotient `60000 / (TICKS_PER_BEAT * bpm)`. -/
theorem set_bpm_of_lt (s : State) (bpm : Nat) (hpos : 0 < bpm) (hlt : bpm < 16384) :
    set_bpm s bpm = some { s with ms_per_tick := 60000 / (TICKS_PER_BEAT * bpm) } := by
  unfold set_bpm TICKS_PER_BEAT
  have h1 : (4 * bpm) % 65536 = 4 * bpm := Nat.mod_eq_of_lt (by omega)
  have h2 : 60000 / (4 * bpm) ≤ 60000 := Nat.div_le_self _ _
  have h3 : (60000 / (4 * bpm)) % 65536 = 60000 / (4 * bpm) := Nat.mod_eq_of_lt (by omega)
  simp only [h1, h3]
  rw [if_neg (by omega)]

/-- C1 (defect in the code): at `bpm = 16385` the 16-bit product
`TICKS_PER_BEAT * bpm` wraps to 4, so `set_bpm` stores 15000 although
`60000 / (4 * 16385)` truncates to 0; at `bpm = 16384` the product wraps to 0 and
the division has no result. -/
theorem set_bpm_wraps (s : State) :
    set_bpm s 16385 = some { s with ms_per_tick := 15000 } ∧
      60000 / (TICKS_PER_BEAT * 16385) = 0 ∧ set_bpm s 16384 = none := by
  refine ⟨?_, by decide, ?_⟩ <;> simp [set_bpm, TICKS_PER_BEAT]

/-! ## The interrupt handlers -/

/-- C7: one firing of `timer_sound_isr` advances `TACCR0` by `current_note`
modulo 2^16, flips the speaker bit of the port exactly when `sound_enabled` is
non-zero, leaves the port as it is when `sound_enabled` is 0, and changes neither
the other port bits nor any other variable or register. -/
theorem timer_sound_isr_effect (s : State) :
    (timer_sound_isr s).TACCR0 = (s.TACCR0 + s.current_note) % 65536 ∧
      (toggled (timer_sound_isr s) s = true ↔ s.sound_enabled ≠ 0) ∧
      (s.sound_enabled = 0 → (timer_sound_isr s).P1OUT = s.P1OUT) ∧
      (∀ i, i ≠ 7 → (timer_sound_isr s).P1OUT.testBit i = s.P1OUT.testBit i) ∧
      (timer_sound_isr s).sound_enabled = s.sound_enabled ∧
      (timer_sound_isr s).current_note = s.current_note ∧
      (timer_sound_isr s).ms_elapsed = s.ms_elapsed ∧
      (timer_sound_isr s).ms_per_tick = s.ms_per_tick ∧
      (timer_sound_isr s).TACCR1 = s.TACCR1 := by
  have hbit : ∀ i, Nat.testBit 128 i = decide (7 = i) := fun i =>
    (Nat.testBit_two_pow : Nat.testBit (2 ^ 7) i = decide (7 = i))
  by_cases h : s.sound_enabled = 0
  · simp [timer_sound_isr, toggled, h]
  · have hp : (timer_sound_isr s).P1OUT = s.P1OUT ^^^ 128 := by
      simp [timer_sound_isr, h, SPEAKER, BIT7]
    refine ⟨?_, ?_, fun h0 => absurd h0 h, ?_, ?_, ?_, ?_, ?_, ?_⟩
    · simp [timer_sound_isr, h]
    · simp only [toggled, hp, Nat.testBit_xor, hbit]
      cases s.P1OUT.testBit 7 <;> simp [h]
    · intro i hi
      rw [hp, Nat.testBit_xor, hbit]
      have : decide (7 = i) = false := by simp [Ne.symm hi]
      rw [this]
      simp
    · simp [timer_sound_isr, h]
    · simp [timer_sound_isr, h]
    · simp [timer_sound_isr, h]
    · simp [timer_sound_isr, h]
    · simp [timer_sound_isr, h]

/-- C8 (as stated, refuted): from a state whose counter holds 65535 one firing
with `TAIV = 2` does not yield `ms_elapsed + 1`; the counter wraps to 0, which is
a decrease. -/
theorem timer_elapsed_isr_wraps :
    (timer_elapsed_isr sWrap 2).ms_elapsed ≠ sWrap.ms_elapsed + 1 ∧
      (timer_elapsed_isr sWrap 2).ms_elapsed < sWrap.ms_elapsed := by
  decide

/-- C8 (amended): one firing of `timer_elapsed_isr` with `TAIV = 2` sets `TACCR1`
to `TACCR1 + 1000` modulo 2^16 and `ms_elapsed` to `ms_elapsed + 1` modulo 2^16,
which is an increase by exactly one whenever `ms_elapsed < 65535`; nothing else
changes, and for any other `TAIV` value the handler changes nothing at all. -/
theorem timer_elapsed_isr_effect (s : State) :
    timer_elapsed_isr s 2 =
        { s with TACCR1 := (s.TACCR1 + 1000) % 65536,
                 ms_elapsed := (s.ms_elapsed + 1) % 65536 } ∧
      (s.ms_elapsed < 65535 → (timer_elapsed_isr s 2).ms_elapsed = s.ms_elapsed + 1) ∧
      (timer_elapsed_isr s 2).sound_enabled = s.sound_enabled ∧
      (timer_elapsed_isr s 2).current_note = s.current_note ∧
      (timer_elapsed_isr s 2).TACCR0 = s.TACCR0 ∧
      (timer_elapsed_isr s 2).P1OUT = s.P1OUT ∧
      (timer_elapsed_isr s 2).ms_per_tick = s.ms_per_tick ∧
      ∀ taiv, taiv ≠ 2 → timer_elapsed_isr s taiv = s := by
  refine ⟨rfl, ?_, rfl, rfl, rfl, rfl, rfl, ?_⟩
  · intro h
    simp only [timer_elapsed_isr, if_true]
    exact Nat.mod_eq_of_lt (by omega)
  · intro taiv h
    simp [timer_elapsed_isr, h]

/-! ## The blocking primitives -/

/-- The state `play` has built when its first wait begins. -/
theorem play_start_eq (s : State) (note dt : Nat) (irqs : List Irq) (r : PlayRun)
    (h : play s note dt irqs = some r) :
    r.start = ⟨1, note, 0, s.ms_per_tick, s.TACCR0, s.TACCR1, s.P1OUT ||| LED_GREEN⟩ := by
  unfold play at h
  simp only at h
  split at h
  · exact absurd h (by simp)
  · split at h
    · exact absurd h (by simp)
    · simp only [Option.some.injEq] at h
      rw [← h]

/-- A note at least as long as the dead time: `play` waits `D - 20` firings with
sound on, switches sound off, waits 20 more and returns with the counter at `D`,
where `D` is the 16-bit product `duration_ticks * ms_per_tick`. -/
theorem play_long (s : State) (note dt : Nat) (irqs : List Irq)
    (hlo : DEAD_TIME_MS ≤ (dt * s.ms_per_tick) % 65536)
    (hfire : (dt * s.ms_per_tick) % 65536 ≤ ms_firings irqs) :
    ∃ r, play s note dt irqs = some r ∧
      r.sounding.ms = (dt * s.ms_per_tick) % 65536 - DEAD_TIME_MS ∧
      r.sounding.exit.ms_elapsed = (dt * s.ms_per_tick) % 65536 - DEAD_TIME_MS ∧
      Kept r.start r.sounding.exit ∧ (∀ t ∈ r.sounding.seen, Kept r.start t) ∧
      r.muted.sound_enabled = 0 ∧ r.muted.current_note = note ∧
      r.muted.ms_elapsed = (dt * s.ms_per_tick) % 65536 - DEAD_TIME_MS ∧
      r.silent.ms = DEAD_TIME_MS ∧
      r.silent.exit.ms_elapsed = (dt * s.ms_per_tick) % 65536 ∧
      Kept r.muted r.silent.exit ∧ (∀ t ∈ r.silent.seen, Kept r.muted t) := by
  have hD : (dt * s.ms_per_tick) % 65536 < 65536 := Nat.mod_lt _ (by norm_num)
  generalize hDdef : (dt * s.ms_per_tick) % 65536 = D at hlo hfire hD ⊢
  unfold DEAD_TIME_MS at hlo ⊢
  have hth : (D + 65536 - 20) % 65536 = D - 20 := by omega
  obtain ⟨w1, hw1, hms1, hex1, hk1, hp1, hs1⟩ :=
    busy_wait_reaches (D - 20) (by omega) irqs
      ⟨1, note, 0, s.ms_per_tick, s.TACCR0, s.TACCR1, s.P1OUT ||| LED_GREEN⟩
      (Nat.zero_le _) (by simp only; omega)
  simp only [Nat.sub_zero] at hms1 hp1
  obtain ⟨w2, hw2, hms2, hex2, hk2, hp2, hs2⟩ :=
    busy_wait_reaches D hD w1.pending
      ⟨0, w1.exit.current_note, w1.exit.ms_elapsed, w1.exit.ms_per_tick, w1.exit.TACCR0,
        w1.exit.TACCR1, w1.exit.P1OUT &&& (65535 - LED_GREEN)⟩
      (by simp only; omega) (by simp only; omega)
  simp only at hms2 hex2
  refine ⟨⟨(⟨1, note, 0, s.ms_per_tick, s.TACCR0, s.TACCR1, s.P1OUT ||| LED_GREEN⟩ : State), w1,
      (⟨0, w1.exit.current_note, w1.exit.ms_elapsed, w1.exit.ms_per_tick, w1.exit.TACCR0,
        w1.exit.TACCR1, w1.exit.P1OUT &&& (65535 - LED_GREEN)⟩ : State), w2⟩,
    ?_, hms1, hex1, hk1, hs1, rfl, hk1.2.1, hex1, ?_, hex2, hk2, hs2⟩
  · unfold play
    simp only [hDdef, DEAD_TIME_MS, hth, hw1, hw2]
  · simp only [hms2]; omega

/-- A note shorter than the dead time: the 16-bit difference
`duration_ms - DEAD_TIME_MS` wraps to `65516 + D`, so the first wait of `play`
lasts `65516 + D` firings with sound on, and the second wait finds its condition
false at once. -/
theorem play_short (s : State) (note dt : Nat) (irqs : List Irq)
    (hlo : (dt * s.ms_per_tick) % 65536 < DEAD_TIME_MS)
    (hfire : 65516 + (dt * s.ms_per_tick) % 65536 ≤ ms_firings irqs) :
    ∃ r, play s note dt irqs = some r ∧
      r.sounding.ms = 65516 + (dt * s.ms_per_tick) % 65536 ∧
      r.sounding.exit.ms_elapsed = 65516 + (dt * s.ms_per_tick) % 65536 ∧
      Kept r.start r.sounding.exit ∧ (∀ t ∈ r.sounding.seen, Kept r.start t) ∧
      r.silent.ms = 0 ∧
      r.silent.exit.ms_elapsed = 65516 + (dt * s.ms_per_tick) % 65536 ∧
      r.silent.exit.sound_enabled = 0 := by
  generalize hDdef : (dt * s.ms_per_tick) % 65536 = D at hlo hfire ⊢
  unfold DEAD_TIME_MS at hlo
  have hth : (D + 65536 - 20) % 65536 = 65516 + D := by omega
  obtain ⟨w1, hw1, hms1, hex1, hk1, hp1, hs1⟩ :=
    busy_wait_reaches (65516 + D) (by omega) irqs
      ⟨1, note, 0, s.ms_per_tick, s.TACCR0, s.TACCR1, s.P1OUT ||| LED_GREEN⟩
      (Nat.zero_le _) (by simp only; omega)
  simp only [Nat.sub_zero] at hms1 hp1
  have hw2 := busy_wait_done D
      ⟨0, w1.exit.current_note, w1.exit.ms_elapsed, w1.exit.ms_per_tick, w1.exit.TACCR0,
        w1.exit.TACCR1, w1.exit.P1OUT &&& (65535 - LED_GREEN)⟩ w1.pending
      (by simp only; omega)
  refine ⟨⟨(⟨1, note, 0, s.ms_per_tick, s.TACCR0, s.TACCR1, s.P1OUT ||| LED_GREEN⟩ : State), w1,
      (⟨0, w1.exit.current_note, w1.exit.ms_elapsed, w1.exit.ms_per_tick, w1.exit.TACCR0,
        w1.exit.TACCR1, w1.exit.P1OUT &&& (65535 - LED_GREEN)⟩ : State),
      ⟨⟨0, w1.exit.current_note, w1.exit.ms_elapsed, w1.exit.ms_per_tick, w1.exit.TACCR0,
        w1.exit.TACCR1, w1.exit.P1OUT &&& (65535 - LED_GREEN)⟩, 0, [], w1.pending⟩⟩,
    ?_, hms1, hex1, hk1, hs1, rfl, hex1, rfl⟩
  unfold play
  simp only [hDdef, DEAD_TIME_MS, hth, hw1, hw2]

/-- `rest` waits exactly `D` firings with sound off, where `D` is the 16-bit
product `duration_ticks * ms_per_tick`. -/
theorem rest_runs (s : State) (dt : Nat) (irqs : List Irq)
    (hfire : (dt * s.ms_per_tick) % 65536 ≤ ms_firings irqs) :
    ∃ r, rest s dt irqs = some r ∧
      r.start = { s with sound_enabled := 0, ms_elapsed := 0 } ∧
      r.silent.ms = (dt * s.ms_per_tick) % 65536 ∧
      r.silent.exit.ms_elapsed = (dt * s.ms_per_tick) % 65536 ∧
      Kept r.start r.silent.exit ∧ (∀ t ∈ r.silent.seen, Kept r.start t) := by
  have hD : (dt * s.ms_per_tick) % 65536 < 65536 := Nat.mod_lt _ (by norm_num)
  generalize hDdef : (dt * s.ms_per_tick) % 65536 = D at hfire hD ⊢
  obtain ⟨w, hw, hms, hex, hk, hp, hs⟩ :=
    busy_wait_reaches D hD irqs { s with sound_enabled := 0, ms_elapsed := 0 }
      (Nat.zero_le _) (by simp only; omega)
  simp only [Nat.sub_zero] at hms
  refine ⟨⟨_, w⟩, ?_, rfl, hms, hex, hk, hs⟩
  unfold rest
  simp only [hDdef, hw]

/-- C2: when `D = duration_ticks * ms_per_tick` satisfies
`DEAD_TIME_MS ≤ D < 2^16`, `play` sets `current_note = note`,
`sound_enabled = 1` and `ms_elapsed = 0`, keeps sound on through exactly
`D - 20` elapsed-time firings, then sets `sound_enabled = 0` and returns after
exactly 20 further firings, with `ms_elapsed = D` and `sound_enabled = 0`. -/
theorem play_two_phase (s : State) (note dt : Nat) (irqs : List Irq)
    (hlo : DEAD_TIME_MS ≤ dt * s.ms_per_tick) (hhi : dt * s.ms_per_tick < 65536)
    (hfire : dt * s.ms_per_tick ≤ ms_firings irqs) :
    ∃ r, play s note dt irqs = some r ∧
      r.start.current_note = note ∧ r.start.sound_enabled = 1 ∧ r.start.ms_elapsed = 0 ∧
      r.sounding.ms = dt * s.ms_per_tick - DEAD_TIME_MS ∧
      (∀ t ∈ r.sounding.seen, t.sound_enabled = 1 ∧ t.current_note = note) ∧
      r.sounding.exit.sound_enabled = 1 ∧
      r.sounding.exit.ms_elapsed = dt * s.ms_per_tick - DEAD_TIME_MS ∧
      r.muted.sound_enabled = 0 ∧
      r.silent.ms = DEAD_TIME_MS ∧
      (∀ t ∈ r.silent.seen, t.sound_enabled = 0) ∧
      r.total_ms = dt * s.ms_per_tick ∧
      r.silent.exit.ms_elapsed = dt * s.ms_per_tick ∧
      r.silent.exit.sound_enabled = 0 := by
  have hmod : (dt * s.ms_per_tick) % 65536 = dt * s.ms_per_tick := Nat.mod_eq_of_lt hhi
  obtain ⟨r, hr, hms1, hex1, hk1, hs1, hmu, hmn, hme, hms2, hex2, hk2, hs2⟩ :=
    play_long s note dt irqs (by rw [hmod]; exact hlo) (by rw [hmod]; exact hfire)
  rw [hmod] at hms1 hex1 hex2
  have hst := play_start_eq s note dt irqs r hr
  have hst1 : r.start.sound_enabled = 1 := by rw [hst]
  have hst2 : r.start.current_note = note := by rw [hst]
  refine ⟨r, hr, hst2, hst1, by rw [hst], hms1, ?_, hk1.1.trans hst1, hex1, hmu, hms2, ?_,
    ?_, hex2, hk2.1.trans hmu⟩
  · intro t ht
    exact ⟨(hs1 t ht).1.trans hst1, (hs1 t ht).2.1.trans hst2⟩
  · intro t ht
    exact (hs2 t ht).1.trans hmu
  · unfold PlayRun.total_ms
    rw [hms1, hms2]
    omega

/-- C2, at the program's own tempo: with 125 ms per tick `play(MIDDLE_A, 1)`
sounds for 105 ms, is silent for 20 ms and lasts 125 ms in total. -/
theorem play_two_phase_middle_a :
    (DEAD_TIME_MS ≤ 1 * s120.ms_per_tick ∧ 1 * s120.ms_per_tick < 65536 ∧
      1 * s120.ms_per_tick ≤ ms_firings (List.replicate 125 (Irq.TIMERA1 2))) ∧
    ∃ r, play s120 MIDDLE_A 1 (List.replicate 125 (Irq.TIMERA1 2)) = some r ∧
      r.start.current_note = MIDDLE_A ∧ r.start.sound_enabled = 1 ∧ r.start.ms_elapsed = 0 ∧
      r.sounding.ms = 105 ∧
      (∀ t ∈ r.sounding.seen, t.sound_enabled = 1 ∧ t.current_note = MIDDLE_A) ∧
      r.sounding.exit.sound_enabled = 1 ∧
      r.sounding.exit.ms_elapsed = 105 ∧
      r.muted.sound_enabled = 0 ∧
      r.silent.ms = 20 ∧
      (∀ t ∈ r.silent.seen, t.sound_enabled = 0) ∧
      r.total_ms = 125 ∧
      r.silent.exit.ms_elapsed = 125 ∧
      r.silent.exit.sound_enabled = 0 :=
  ⟨⟨by decide, by decide, le_of_eq (ms_firings_replicate 125).symm⟩,
    play_two_phase s120 MIDDLE_A 1 (List.replicate 125 (Irq.TIMERA1 2)) (by decide) (by decide)
      (le_of_eq (ms_firings_replicate 125).symm)⟩

/-- C6: when `D = duration_ticks * ms_per_tick < 2^16`, `rest` clears
`sound_enabled` and never sets it again: in every state from its first write to
its return `sound_enabled` is 0, the port is the one `rest` was entered with, a
firing of the oscillator handler would not toggle the speaker pin, and
`current_note` is unchanged; `rest` returns after exactly `D` elapsed-time
firings with `ms_elapsed = D`. -/
theorem rest_silent (s : State) (dt : Nat) (irqs : List Irq)
    (hhi : dt * s.ms_per_tick < 65536) (hfire : dt * s.ms_per_tick ≤ ms_firings irqs) :
    ∃ r, rest s dt irqs = some r ∧
      r.start.sound_enabled = 0 ∧ r.start.ms_elapsed = 0 ∧
      (∀ t ∈ r.start :: r.silent.exit :: r.silent.seen,
        t.sound_enabled = 0 ∧ t.P1OUT = s.P1OUT ∧ t.current_note = s.current_note ∧
          toggled (timer_sound_isr t) t = false) ∧
      r.silent.ms = dt * s.ms_per_tick ∧
      r.silent.exit.ms_elapsed = dt * s.ms_per_tick := by
  have hmod : (dt * s.ms_per_tick) % 65536 = dt * s.ms_per_tick := Nat.mod_eq_of_lt hhi
  obtain ⟨r, hr, hst, hms, hex, hk, hs⟩ := rest_runs s dt irqs (by rw [hmod]; exact hfire)
  rw [hmod] at hms hex
  have hquiet : ∀ t : State, t.sound_enabled = 0 → toggled (timer_sound_isr t) t = false := by
    intro t h0
    simp [toggled, timer_sound_isr, h0]
  have h0 : r.start.sound_enabled = 0 := by rw [hst]
  have hp : r.start.P1OUT = s.P1OUT := by rw [hst]
  have hn : r.start.current_note = s.current_note := by rw [hst]
  have hall : ∀ t, Kept r.start t →
      t.sound_enabled = 0 ∧ t.P1OUT = s.P1OUT ∧ t.current_note = s.current_note ∧
        toggled (timer_sound_isr t) t = false := by
    intro t hkt
    exact ⟨hkt.1.trans h0, (hkt.2.2.2 h0).trans hp, hkt.2.1.trans hn,
      hquiet t (hkt.1.trans h0)⟩
  refine ⟨r, hr, h0, by rw [hst], ?_, hms, hex⟩
  intro t ht
  rcases List.mem_cons.mp ht with h | h
  · rw [h]; exact hall _ (Kept.refl _)
  · rcases List.mem_cons.mp h with h | h
    · rw [h]; exact hall _ hk
    · exact hall _ (hs t h)

/-- C6, entered with sound on and the oscillator firing between the elapsed-time
firings: `rest(1)` at 125 ms per tick. -/
theorem rest_silent_from_sounding :
    (1 * sOn.ms_per_tick < 65536 ∧
      1 * sOn.ms_per_tick ≤
        ms_firings (Irq.TIMERA0 :: Irq.TIMERA0 :: List.replicate 125 (Irq.TIMERA1 2))) ∧
    ∃ r, rest sOn 1 (Irq.TIMERA0 :: Irq.TIMERA0 :: List.replicate 125 (Irq.TIMERA1 2)) = some r ∧
      r.start.sound_enabled = 0 ∧ r.start.ms_elapsed = 0 ∧
      (∀ t ∈ r.start :: r.silent.exit :: r.silent.seen,
        t.sound_enabled = 0 ∧ t.P1OUT = sOn.P1OUT ∧ t.current_note = sOn.current_note ∧
          toggled (timer_sound_isr t) t = false) ∧
      r.silent.ms = 125 ∧
      r.silent.exit.ms_elapsed = 125 :=
  have h : 1 * sOn.ms_per_tick ≤
      ms_firings (Irq.TIMERA0 :: Irq.TIMERA0 :: List.replicate 125 (Irq.TIMERA1 2)) := by
    simp only [ms_firings, ms_firings_replicate]
    decide
  ⟨⟨by decide, h⟩, rest_silent sOn 1 _ (by decide) h⟩

/-- C10: from every state, for every note and duration, `play` and `rest`
return once the elapsed-time handler has fired often enough; 65535 firings
always suffice, whatever the 16-bit product `duration_ticks * ms_per_tick` is. -/
theorem play_rest_return (s : State) (note dt : Nat) (irqs : List Irq)
    (hfire : 65535 ≤ ms_firings irqs) :
    (∃ r, play s note dt irqs = some r ∧ r.total_ms ≤ 65535) ∧
      (∃ r, rest s dt irqs = some r ∧ r.silent.ms ≤ 65535) := by
  have hD : (dt * s.ms_per_tick) % 65536 < 65536 := Nat.mod_lt _ (by norm_num)
  constructor
  · by_cases hlo : DEAD_TIME_MS ≤ (dt * s.ms_per_tick) % 65536
    · obtain ⟨r, hr, hms1, _, _, _, _, _, _, hms2, _⟩ :=
        play_long s note dt irqs hlo (by omega)
      refine ⟨r, hr, ?_⟩
      unfold PlayRun.total_ms
      unfold DEAD_TIME_MS at hlo hms1 hms2
      omega
    · unfold DEAD_TIME_MS at hlo
      obtain ⟨r, hr, hms1, _, _, _, hms2, _⟩ :=
        play_short s note dt irqs (by unfold DEAD_TIME_MS; omega) (by omega)
      refine ⟨r, hr, ?_⟩
      unfold PlayRun.total_ms
      omega
  · obtain ⟨r, hr, _, hms, _⟩ := rest_runs s dt irqs (by omega)
    exact ⟨r, hr, by omega⟩

/-- C10, at a note shorter than the dead time (15 ms per tick, one tick). -/
theorem play_rest_return_short :
    65535 ≤ ms_firings (List.replicate 65535 (Irq.TIMERA1 2)) ∧
    ((∃ r, play s1000 MIDDLE_A 1 (List.replicate 65535 (Irq.TIMERA1 2)) = some r ∧
        r.total_ms ≤ 65535) ∧
      (∃ r, rest s1000 1 (List.replicate 65535 (Irq.TIMERA1 2)) = some r ∧
        r.silent.ms ≤ 65535)) :=
  ⟨le_of_eq (ms_firings_replicate 65535).symm,
    play_rest_return s1000 MIDDLE_A 1 _ (le_of_eq (ms_firings_replicate 65535).symm)⟩

/-! ## Notes shorter than the dead time -/

/-- C3 (defect in the code): at 15 ms per tick `play(MIDDLE_A, 1)` has
`D = 15 ≤ DEAD_TIME_MS`, yet its first wait is not cut to zero: after 15
elapsed-time firings `play` has not returned, the first wait ends only when
`ms_elapsed` has reached `65531 = 2^16 + 15 - 20` with sound still on, and that is
the value of `ms_elapsed` at return. -/
theorem play_short_note_overruns :
    1 * s1000.ms_per_tick ≤ DEAD_TIME_MS ∧
      play s1000 MIDDLE_A 1 (List.replicate 15 (Irq.TIMERA1 2)) = none ∧
      ∃ r, play s1000 MIDDLE_A 1 (List.replicate 65531 (Irq.TIMERA1 2)) = some r ∧
        r.sounding.ms = 65531 ∧ r.sounding.exit.ms_elapsed = 65531 ∧
        r.sounding.exit.sound_enabled = 1 ∧ (∀ t ∈ r.sounding.seen, t.sound_enabled = 1) ∧
        r.silent.ms = 0 ∧ r.silent.exit.ms_elapsed = 65531 := by
  refine ⟨by decide, by decide, ?_⟩
  obtain ⟨r, hr, hms1, hex1, hk1, hs1, hms2, hex2, _⟩ :=
    play_short s1000 MIDDLE_A 1 (List.replicate 65531 (Irq.TIMERA1 2)) (by decide)
      (by rw [ms_firings_replicate]; decide)
  have hst := play_start_eq _ _ _ _ r hr
  have hst1 : r.start.sound_enabled = 1 := by rw [hst]
  exact ⟨r, hr, hms1, hex1, hk1.1.trans hst1, fun t ht => (hs1 t ht).1.trans hst1, hms2, hex2⟩

/-- C4 (defect in the code): at 15 ms per tick `rest(1)` returns after 15
elapsed-time firings while `play(MIDDLE_A, 1)` returns after 65531. -/
theorem play_rest_differ :
    ∃ rp rr, play s1000 MIDDLE_A 1 (List.replicate 65531 (Irq.TIMERA1 2)) = some rp ∧
      rest s1000 1 (List.replicate 65531 (Irq.TIMERA1 2)) = some rr ∧
      rp.total_ms = 65531 ∧ rr.silent.ms = 15 ∧ rp.total_ms ≠ rr.silent.ms := by
  obtain ⟨rp, hrp, hms1, _, _, _, hms2, _⟩ :=
    play_short s1000 MIDDLE_A 1 (List.replicate 65531 (Irq.TIMERA1 2)) (by decide)
      (by rw [ms_firings_replicate]; decide)
  obtain ⟨rr, hrr, _, hms, _⟩ :=
    rest_runs s1000 1 (List.replicate 65531 (Irq.TIMERA1 2))
      (by rw [ms_firings_replicate]; decide)
  have h1 : rp.sounding.ms = 65531 := hms1
  have h2 : rr.silent.ms = 15 := hms
  have htot : rp.total_ms = 65531 := by
    unfold PlayRun.total_ms
    rw [h1, hms2]
  exact ⟨rp, rr, hrp, hrr, htot, h2, by rw [htot, h2]; decide⟩

/-- C5 (defect in the code): after `set_bpm(6000)` a tick is 2 ms, so one beat is
`D = 8` ms: `rest(TICKS_PER_BEAT)` lasts 8 ms but `play(note, TICKS_PER_BEAT)`
lasts 65524 ms, more than `60000 / 6000 = 10`.  After `set_bpm(16385)` the
wrapped product stores 15000 ms per tick and `rest(TICKS_PER_BEAT)` lasts
60000 ms, more than `60000 / 16385`. -/
theorem beat_overruns :
    (∃ s rp rr, set_bpm s120 6000 = some s ∧ s.ms_per_tick = 2 ∧
        play s MIDDLE_A TICKS_PER_BEAT (List.replicate 65524 (Irq.TIMERA1 2)) = some rp ∧
        rest s TICKS_PER_BEAT (List.replicate 65524 (Irq.TIMERA1 2)) = some rr ∧
        rr.silent.ms = 8 ∧ rp.total_ms = 65524 ∧
        ¬ ((rp.total_ms : ℚ) ≤ 60000 / 6000)) ∧
      (∃ s rr, set_bpm s120 16385 = some s ∧ s.ms_per_tick = 15000 ∧
        rest s TICKS_PER_BEAT (List.replicate 60000 (Irq.TIMERA1 2)) = some rr ∧
        rr.silent.ms = 60000 ∧ ¬ ((rr.silent.ms : ℚ) ≤ 60000 / 16385)) := by
  constructor
  · have hset : set_bpm s120 6000 = some s6000 := by decide
    obtain ⟨rp, hrp, hms1, _, _, _, hms2, _⟩ :=
      play_short s6000 MIDDLE_A TICKS_PER_BEAT
        (List.replicate 65524 (Irq.TIMERA1 2)) (by decide)
        (by rw [ms_firings_replicate]; decide)
    obtain ⟨rr, hrr, _, hms, _⟩ :=
      rest_runs s6000 TICKS_PER_BEAT
        (List.replicate 65524 (Irq.TIMERA1 2)) (by rw [ms_firings_replicate]; decide)
    have h1 : rp.sounding.ms = 65524 := hms1
    have h2 : rr.silent.ms = 8 := hms
    have htot : rp.total_ms = 65524 := by
      unfold PlayRun.total_ms
      rw [h1, hms2]
    refine ⟨s6000, rp, rr, hset, rfl, hrp, hrr, h2, htot, ?_⟩
    rw [htot]
    norm_num
  · have hset : set_bpm s120 16385 = some s16385 := by decide
    obtain ⟨rr, hrr, _, hms, _⟩ :=
      rest_runs s16385 TICKS_PER_BEAT
        (List.replicate 60000 (Irq.TIMERA1 2)) (by rw [ms_firings_replicate]; decide)
    have hms60 : rr.silent.ms = 60000 := hms
    refine ⟨s16385, rr, hset, rfl, hrr, hms60, ?_⟩
    rw [hms60]
    norm_num

/-! ## The oscillator on the free-running counter -/

/-- The elapsed-time handler never touches the oscillator's variables. -/
theorem timer_elapsed_isr_osc (s : State) (taiv : Nat) :
    (timer_elapsed_isr s taiv).P1OUT = s.P1OUT ∧
      (timer_elapsed_isr s taiv).TACCR0 = s.TACCR0 ∧
      (timer_elapsed_isr s taiv).sound_enabled = s.sound_enabled ∧
      (timer_elapsed_isr s taiv).current_note = s.current_note := by
  unfold timer_elapsed_isr
  by_cases h : taiv = 2 <;> simp [h]

/-- The oscillator's side of one hardware tick: its variables after the tick are
those the CCR0 handler leaves, if the counter matched `TACCR0`, and untouched
otherwise. -/
theorem clock_osc (m : Machine) :
    (clock m).TAR = (m.TAR + 1) % 65536 ∧
      (clock m).s.P1OUT =
        (if (m.TAR + 1) % 65536 = m.s.TACCR0 then timer_sound_isr m.s else m.s).P1OUT ∧
      (clock m).s.TACCR0 =
        (if (m.TAR + 1) % 65536 = m.s.TACCR0 then timer_sound_isr m.s else m.s).TACCR0 ∧
      (clock m).s.sound_enabled =
        (if (m.TAR + 1) % 65536 = m.s.TACCR0 then timer_sound_isr m.s else m.s).sound_enabled ∧
      (clock m).s.current_note =
        (if (m.TAR + 1) % 65536 = m.s.TACCR0 then timer_sound_isr m.s else m.s).current_note := by
  unfold clock
  refine ⟨rfl, ?_, ?_, ?_, ?_⟩ <;>
    · simp only
      split_ifs <;> simp only [(timer_elapsed_isr_osc _ _).1, (timer_elapsed_isr_osc _ _).2.1,
        (timer_elapsed_isr_osc _ _).2.2.1, (timer_elapsed_isr_osc _ _).2.2.2]

/-- With sound on and the compare register `k` ticks ahead of the counter
(`1 ≤ k ≤ 2^16`), the speaker pin next changes level exactly `k` ticks later. -/
theorem ticks_to_toggle_countdown :
    ∀ (fuel k : Nat) (m : Machine), 0 < k → k ≤ 65536 → m.TAR < 65536 →
      m.s.TACCR0 = (m.TAR + k) % 65536 → m.s.sound_enabled ≠ 0 → k ≤ fuel →
      ticks_to_toggle fuel m = some k := by
  intro fuel
  induction fuel with
  | zero => intro k m hk _ _ _ _ hf; omega
  | succ n ih =>
    intro k m hk hk2 htar hcmp hon hf
    obtain ⟨hT, hP, hC, hE, hN⟩ := clock_osc m
    by_cases h1 : k = 1
    · have hmatch : (m.TAR + 1) % 65536 = m.s.TACCR0 := by rw [hcmp, h1]
      have htog : toggled (clock m).s m.s = true := by
        unfold toggled
        rw [hP, if_pos hmatch]
        exact (timer_sound_isr_toggles m.s hon)
      simp [ticks_to_toggle, htog, h1]
    · have hmiss : (m.TAR + 1) % 65536 ≠ m.s.TACCR0 := by rw [hcmp]; omega
      rw [if_neg hmiss] at hP hC hE hN
      have htog : toggled (clock m).s m.s = false := by
        unfold toggled
        rw [hP]
        simp
      have hrec := ih (k - 1) (clock m) (by omega) (by omega)
        (by rw [hT]; exact Nat.mod_lt _ (by norm_num))
        (by rw [hC, hT, hcmp]; omega) (by rw [hE]; exact hon) (by omega)
      simp only [ticks_to_toggle, htog, hrec]
      simp
      omega

/-- C9 (as stated, refuted): playing `MIDDLE_A` (period value 1136), a toggle
of the speaker pin is followed by the next one 1136 hardware ticks later, not
`2 * 1136`. -/
theorem toggle_spacing_not_double :
    toggled (clock mA).s mA.s = true ∧ (clock mA).s.current_note = MIDDLE_A ∧
      ticks_to_toggle 65536 (clock mA) = some 1136 ∧
      ticks_to_toggle 65536 (clock mA) ≠ some (2 * MIDDLE_A) := by
  have h : ticks_to_toggle 65536 (clock mA) = some 1136 :=
    ticks_to_toggle_countdown 65536 1136 (clock mA) (by decide) (by decide) (by decide)
      (by decide) (by decide) (by decide)
  refine ⟨by decide, by decide, h, ?_⟩
  rw [h]
  decide

/-- C9 (amended): with sound enabled and `current_note = p` held fixed, a toggle
of the speaker pin is followed by the next toggle exactly `p` hardware ticks
later (one toggle per half-period; `2^16` ticks when `p = 0`, the compare value
then staying where it is). -/
theorem toggle_spacing (m : Machine) (p fuel : Nat) (hnote : m.s.current_note = p)
    (hp : p < 65536) (hon : m.s.sound_enabled ≠ 0)
    (htog : toggled (clock m).s m.s = true)
    (hfuel : (if p = 0 then 65536 else p) ≤ fuel) :
    ticks_to_toggle fuel (clock m) = some (if p = 0 then 65536 else p) := by
  obtain ⟨hT, hP, hC, hE, hN⟩ := clock_osc m
  have hmatch : (m.TAR + 1) % 65536 = m.s.TACCR0 := by
    by_contra hne
    rw [if_neg hne] at hP
    unfold toggled at htog
    rw [hP] at htog
    simp at htog
  rw [if_pos hmatch] at hC hE
  have hC2 : (clock m).s.TACCR0 = (m.s.TACCR0 + p) % 65536 := by
    rw [hC, (timer_sound_isr_effect_fields m.s).1, hnote]
  have hE2 : (clock m).s.sound_enabled ≠ 0 := by
    rw [hE, (timer_sound_isr_effect_fields m.s).2]; exact hon
  have hlt : (clock m).TAR < 65536 := by rw [hT]; exact Nat.mod_lt _ (by norm_num)
  apply ticks_to_toggle_countdown fuel _ (clock m) _ _ hlt _ hE2 hfuel
  · split_ifs <;> omega
  · split_ifs <;> omega
  · rw [hC2, hT, hmatch]
    have := hmatch ▸ Nat.mod_lt (m.TAR + 1) (by norm_num : 0 < 65536)
    split_ifs <;> omega

/-- C9 (amended), playing `MIDDLE_A`: 1136 ticks from one toggle to the next. -/
theorem toggle_spacing_middle_a :
    (mA.s.current_note = MIDDLE_A ∧ MIDDLE_A < 65536 ∧ mA.s.sound_enabled ≠ 0 ∧
      toggled (clock mA).s mA.s = true ∧ (if MIDDLE_A = 0 then 65536 else MIDDLE_A) ≤ 2000) ∧
    ticks_to_toggle 2000 (clock mA) = some (if MIDDLE_A = 0 then 65536 else MIDDLE_A) :=
  ⟨⟨rfl, by decide, by decide, by decide, by decide⟩,
    toggle_spacing mA MIDDLE_A 2000 rfl (by decide) (by decide) (by decide) (by decide)⟩

/-- Up to 3000 bpm a beat is at least the dead time long and nothing wraps:
after `set_bpm(bpm)`, `play(note, TICKS_PER_BEAT)` and `rest(TICKS_PER_BEAT)`
both last `T` ms with `T ≤ 60000 / bpm` and `60000 / bpm - T < TICKS_PER_BEAT`
as rationals. -/
theorem beat_within_truncation (s : State) (note bpm : Nat) (irqs : List Irq)
    (hpos : 0 < bpm) (hle : bpm ≤ 3000) (hfire : 60000 ≤ ms_firings irqs) :
    ∃ s1 rp rr, set_bpm s bpm = some s1 ∧
      play s1 note TICKS_PER_BEAT irqs = some rp ∧
      rest s1 TICKS_PER_BEAT irqs = some rr ∧
      rp.total_ms = rr.silent.ms ∧
      (rr.silent.ms : ℚ) ≤ 60000 / bpm ∧
      (60000 : ℚ) / bpm - rr.silent.ms < TICKS_PER_BEAT := by
  have hset := set_bpm_of_lt s bpm hpos (by omega)
  unfold TICKS_PER_BEAT at hset ⊢
  have hm1 : 60000 / (4 * bpm) * (4 * bpm) ≤ 60000 := Nat.div_mul_le_self _ _
  have hm2 : 60000 < (60000 / (4 * bpm) + 1) * (4 * bpm) :=
    Nat.lt_mul_of_div_lt (Nat.lt_succ_self _) (by omega)
  have hm3 : 5 ≤ 60000 / (4 * bpm) := (Nat.le_div_iff_mul_le (by omega)).mpr (by omega)
  generalize 60000 / (4 * bpm) = m at hset hm1 hm2 hm3
  have hm4 : 4 * m ≤ 60000 := by nlinarith
  have hD : (4 * m) % 65536 = 4 * m := Nat.mod_eq_of_lt (by omega)
  obtain ⟨rp, hrp, hms1, _, _, _, _, _, _, hms2, _⟩ :=
    play_long { s with ms_per_tick := m } note 4 irqs
      (by simp only [hD, DEAD_TIME_MS]; omega) (by simp only [hD]; omega)
  obtain ⟨rr, hrr, _, hms, _⟩ :=
    rest_runs { s with ms_per_tick := m } 4 irqs (by simp only [hD]; omega)
  simp only [hD, DEAD_TIME_MS] at hms1 hms2 hms
  have hb : (0 : ℚ) < bpm := by exact_mod_cast hpos
  have q1 : ((4 * m * bpm : Nat) : ℚ) ≤ ((60000 : Nat) : ℚ) := by
    exact_mod_cast (by nlinarith : 4 * m * bpm ≤ 60000)
  have q2 : ((60000 : Nat) : ℚ) < (((4 * m + 4) * bpm : Nat) : ℚ) := by
    exact_mod_cast (by nlinarith : 60000 < (4 * m + 4) * bpm)
  push_cast at q1 q2
  refine ⟨_, rp, rr, hset, hrp, hrr, ?_, ?_, ?_⟩
  · unfold PlayRun.total_ms
    omega
  · rw [hms, le_div_iff₀ hb]
    push_cast
    linarith
  · rw [hms, sub_lt_iff_lt_add, div_lt_iff₀ hb]
    push_cast
    linarith

end LaunchpadMusic
